import Mathlib

/-!
Verification of the task-sync plugin (repository `thuban87/task-sync`).

Strings are modelled as `List Char` (one entry per Unicode scalar).  The
plugin's regex operations are embedded as executable list functions; each
definition carries a comment naming the TypeScript source it translates.
The global-replace scanners advance one character at a time and carry a
fuel argument bounded by the list length, so that they are structurally
recursive and evaluate by kernel reduction.
-/

set_option maxHeartbeats 1000000

/-- JS `\s` / `String.trim` whitespace class (ECMAScript WhiteSpace and
LineTerminator code points). -/
def isSpace (c : Char) : Bool :=
  c = ' ' || c = '\t' || c = '\n' || c = '\x0b' || c = '\x0c' || c = '\r'
  || c.toNat = 0xa0 || c.toNat = 0x1680
  || (0x2000 ≤ c.toNat && c.toNat ≤ 0x200a)
  || c.toNat = 0x2028 || c.toNat = 0x2029 || c.toNat = 0x202f
  || c.toNat = 0x205f || c.toNat = 0x3000 || c.toNat = 0xfeff

/-- JS `\d`. -/
def isDigit (c : Char) : Bool :=
  '0' ≤ c && c ≤ '9'

/-- Priority emoji class `[⏫🔺🔼🔽⏬]` (src/utils/TaskParser.ts, cleanTaskText). -/
def isPriorityEmoji (c : Char) : Bool :=
  c = '⏫' || c = '🔺' || c = '🔼' || c = '🔽' || c = '⏬'

/-- Tasks-plugin metadata emoji class `[✅📅⏳🛫🔁➕]` (TaskParser.cleanTaskText). -/
def isMetaEmoji (c : Char) : Bool :=
  c = '✅' || c = '📅' || c = '⏳' || c = '🛫' || c = '🔁' || c = '➕'

/-- Shared anchored parse `\s* - \s* [ c ] rest` underlying the checkbox
regexes `^(\s*)-\s*\[([ xX])\]`, `^(\s*-\s*)\[ \]`, `^(\s*-\s*)\[[xX]\]`
and the checkbox strip in cleanTaskText.  Returns the two whitespace runs,
the bracket character and the remainder of the line. -/
def parseCheckbox (line : List Char) : Option (List Char × List Char × Char × List Char) :=
  match line.dropWhile isSpace with
  | '-' :: r2 =>
    match r2.dropWhile isSpace with
    | '[' :: c :: ']' :: rest => some (line.takeWhile isSpace, r2.takeWhile isSpace, c, rest)
    | _ => none
  | _ => none

/-- `cleaned.replace(/^\s*-\s*\[[ xX]\]\s*/, '')` — first step of
TaskParser.cleanTaskText. -/
def stripCheckbox (line : List Char) : List Char :=
  match parseCheckbox line with
  | some (_, _, c, rest) =>
    if c = ' ' ∨ c = 'x' ∨ c = 'X' then rest.dropWhile isSpace else line
  | none => line

/-- `cleaned.replace(/[⏫🔺🔼🔽⏬]/g, '')`. -/
def removePriority (l : List Char) : List Char :=
  l.filter (fun c => !isPriorityEmoji c)

/-- Tail of a match of `\s*\d{4}-\d{2}-\d{2}` (the part after the metadata
emoji in `[✅📅⏳🛫🔁➕]\s*\d{4}-\d{2}-\d{2}`); `none` when the pattern does
not continue here. -/
def metaTail (l : List Char) : Option (List Char) :=
  match l.dropWhile isSpace with
  | a :: b :: c :: d :: '-' :: e :: f :: '-' :: g :: h :: rest =>
    if isDigit a && isDigit b && isDigit c && isDigit d
        && isDigit e && isDigit f && isDigit g && isDigit h then
      some rest
    else none
  | _ => none

/-- `cleaned.replace(/[✅📅⏳🛫🔁➕]\s*\d{4}-\d{2}-\d{2}/g, '')` — global
left-to-right non-overlapping scan. -/
def removeMetaGo : Nat → List Char → List Char
  | 0, l => l
  | _ + 1, [] => []
  | fuel + 1, c :: cs =>
    if isMetaEmoji c then
      match metaTail cs with
      | some t => removeMetaGo fuel t
      | none => c :: removeMetaGo fuel cs
    else c :: removeMetaGo fuel cs

def removeMeta (l : List Char) : List Char :=
  removeMetaGo l.length l

/-- `cleaned.replace(/✅/g, '')`. -/
def removeCheckEmoji (l : List Char) : List Char :=
  l.filter (fun c => !(c = '✅'))

/-- Tail after a match of `\[\[[^\]]+\]\]` starting exactly here, else `none`. -/
def wikiTail : List Char → Option (List Char)
  | '[' :: '[' :: rest =>
    match rest.dropWhile (fun c => !(c = ']')) with
    | ']' :: ']' :: tail =>
      if (rest.takeWhile (fun c => !(c = ']'))).isEmpty then none else some tail
    | _ => none
  | _ => none

/-- `cleaned.replace(/\[\[[^\]]+\]\]/g, '')`. -/
def removeWikilinksGo : Nat → List Char → List Char
  | 0, l => l
  | _ + 1, [] => []
  | fuel + 1, c :: cs =>
    match wikiTail (c :: cs) with
    | some t => removeWikilinksGo fuel t
    | none => c :: removeWikilinksGo fuel cs

def removeWikilinks (l : List Char) : List Char :=
  removeWikilinksGo l.length l

/-- Tail after a match of `\[[^\]]+\]\([^)]+\)` starting exactly here. -/
def mdTail : List Char → Option (List Char)
  | '[' :: rest =>
    match rest.dropWhile (fun c => !(c = ']')) with
    | ']' :: '(' :: rest2 =>
      match rest2.dropWhile (fun c => !(c = ')')) with
      | ')' :: tail =>
        if (rest.takeWhile (fun c => !(c = ']'))).isEmpty
            || (rest2.takeWhile (fun c => !(c = ')'))).isEmpty then none
        else some tail
      | _ => none
    | _ => none
  | _ => none

/-- `cleaned.replace(/\[[^\]]+\]\([^)]+\)/g, '')`. -/
def removeMdLinksGo : Nat → List Char → List Char
  | 0, l => l
  | _ + 1, [] => []
  | fuel + 1, c :: cs =>
    match mdTail (c :: cs) with
    | some t => removeMdLinksGo fuel t
    | none => c :: removeMdLinksGo fuel cs

def removeMdLinks (l : List Char) : List Char :=
  removeMdLinksGo l.length l

/-- `cleaned.replace(/\s+/g, ' ')`: every maximal whitespace run becomes one
blank.  The boolean records whether the previous character was whitespace. -/
def collapseAux : Bool → List Char → List Char
  | _, [] => []
  | prevSpace, c :: cs =>
    if isSpace c then
      if prevSpace then collapseAux true cs else ' ' :: collapseAux true cs
    else c :: collapseAux false cs

def collapseWs (l : List Char) : List Char :=
  collapseAux false l

/-- JS `String.trim()`. -/
def trimWs (l : List Char) : List Char :=
  ((l.dropWhile isSpace).reverse.dropWhile isSpace).reverse

/-- TaskParser.cleanTaskText (src/utils/TaskParser.ts, lines 609-635):
checkbox prefix, priority emojis, metadata emoji+date, standalone ✅,
wikilinks, markdown links, whitespace collapse, trim — in source order. -/
def cleanTaskText (line : List Char) : List Char :=
  trimWs (collapseWs (removeMdLinks (removeWikilinks (removeCheckEmoji
    (removeMeta (removePriority (stripCheckbox line)))))))

example : cleanTaskText "- [x] Buy milk ⏫ [[S]]".toList = "Buy milk".toList := by decide
example : cleanTaskText "- [ ] - [ ] x".toList = "- [ ] x".toList := by decide
example : cleanTaskText "- [ ] x".toList = "x".toList := by decide
example : cleanTaskText "- [ ] Do it 🔺 📅 2024-01-05 [a](b)".toList = "Do it".toList := by
  decide

/-- CHECKBOX_REGEX `^(\s*)-\s*\[([ xX])\]` (src/constants.ts): the captured
bracket character, or `none` when the line is not a checkbox. -/
def checkboxState (line : List Char) : Option Char :=
  match parseCheckbox line with
  | some (_, _, c, _) => if c = ' ' ∨ c = 'x' ∨ c = 'X' then some c else none
  | none => none

/-- TaskParser.isCheckbox. -/
def isCheckbox (line : List Char) : Bool :=
  (checkboxState line).isSome

/-- TaskParser.isUncompleted — UNCOMPLETED_CHECKBOX_REGEX `^(\s*)-\s*\[ \]`. -/
def isUncompleted (line : List Char) : Bool :=
  checkboxState line = some ' '

/-- TaskParser.isCompleted — COMPLETED_CHECKBOX_REGEX `^(\s*)-\s*\[[xX]\]`. -/
def isCompleted (line : List Char) : Bool :=
  match checkboxState line with
  | some c => c = 'x' || c = 'X'
  | none => false

/-- `oldLine.replace(/^(\s*-\s*)\[ \]/, '$1[x]')`
(ReverseSyncService.syncToggleToSource, checked case). -/
def replaceUnchecked (line : List Char) : List Char :=
  match parseCheckbox line with
  | some (ws1, ws2, c, rest) =>
    if c = ' ' then ws1 ++ '-' :: (ws2 ++ '[' :: 'x' :: ']' :: rest) else line
  | none => line

/-- `oldLine.replace(/^(\s*-\s*)\[[xX]\]/, '$1[ ]')`
(ReverseSyncService.syncToggleToSource, unchecked case). -/
def replaceChecked (line : List Char) : List Char :=
  match parseCheckbox line with
  | some (ws1, ws2, c, rest) =>
    if c = 'x' ∨ c = 'X' then ws1 ++ '-' :: (ws2 ++ '[' :: ' ' :: ']' :: rest) else line
  | none => line

/-- Priority level `'highest' | 'high'` (src/constants.ts PRIORITY_MARKERS). -/
inductive Priority
  | highest
  | high
deriving DecidableEq, Repr

/-- TaskParser.TaskState (src/utils/TaskParser.ts).  `priority` is
`Option Priority` because extractPriority may yield null. -/
structure TaskState where
  lineNumber : Nat
  cleanText : List Char
  priority : Option Priority
  checked : Bool
  sourcePath : Option (List Char)
  originalLine : List Char
deriving DecidableEq, Repr

/-- TaskParser.TaskMatch. -/
structure TaskMatch where
  newState : TaskState
  oldState : Option TaskState
  checkedChanged : Bool
deriving DecidableEq, Repr

/-- The score computed inside TaskParser.matchTasks (lines 774-789):
+3 clean-text equality, +1 priority equality, +1 same map key.
The position signal compares the map keys `oldLineNum`/`newLineNum`. -/
def score (oldLineNum : Nat) (o : TaskState) (newLineNum : Nat) (n : TaskState) : Nat :=
  (if o.cleanText = n.cleanText then 3 else 0)
  + (if o.priority = n.priority then 1 else 0)
  + (if oldLineNum = newLineNum then 1 else 0)

/-- One iteration of the inner `for (const [oldLineNum, oldState] of oldStates)`
loop of matchTasks: skip consumed keys, then
`if (score >= 2 && (!bestMatch || score > bestMatch.score)) bestMatch = {oldState, score}`. -/
def bestStep (newLineNum : Nat) (n : TaskState) (consumed : List Nat)
    (best : Option (TaskState × Nat)) (p : Nat × TaskState) : Option (TaskState × Nat) :=
  if p.1 ∈ consumed then best
  else
    match best with
    | none =>
      if 2 ≤ score p.1 p.2 newLineNum n then some (p.2, score p.1 p.2 newLineNum n) else none
    | some b =>
      if 2 ≤ score p.1 p.2 newLineNum n ∧ b.2 < score p.1 p.2 newLineNum n then
        some (p.2, score p.1 p.2 newLineNum n)
      else some b

/-- The bestMatch found by the inner loop of matchTasks for one new state.
A JS `Map` iterates in insertion order, so a snapshot is embedded as the
association list of its entries in that order. -/
def bestMatchFor (oldStates : List (Nat × TaskState)) (consumed : List Nat)
    (newLineNum : Nat) (n : TaskState) : Option (TaskState × Nat) :=
  oldStates.foldl (bestStep newLineNum n consumed) none

/-- The outer `for (const [newLineNum, newState] of newStates)` loop of
matchTasks; `consumed` is the matchedOldKeys set, extended with
`bestMatch.oldState.lineNumber` on every accepted match. -/
def matchTasksGo (oldStates : List (Nat × TaskState)) :
    List (Nat × TaskState) → List Nat → List TaskMatch
  | [], _ => []
  | (newLineNum, n) :: rest, consumed =>
    match bestMatchFor oldStates consumed newLineNum n with
    | some (o, _) =>
      ⟨n, some o, o.checked != n.checked⟩ :: matchTasksGo oldStates rest (o.lineNumber :: consumed)
    | none =>
      ⟨n, none, false⟩ :: matchTasksGo oldStates rest consumed

/-- TaskParser.matchTasks (src/utils/TaskParser.ts, lines 761-815). -/
def matchTasks (oldStates newStates : List (Nat × TaskState)) : List TaskMatch :=
  matchTasksGo oldStates newStates []

/-- PriorityTask (src/models/PriorityTask.ts); `priority` is non-null here. -/
structure PriorityTask where
  originalLine : List Char
  cleanText : List Char
  filePath : List Char
  lineNumber : Nat
  priority : Priority
deriving DecidableEq, Repr

/-- SyncedTask (src/models/PriorityTask.ts). -/
structure SyncedTask where
  cleanText : List Char
  line : List Char
  completed : Bool
  lineNumber : Nat
deriving DecidableEq, Repr

/-- Section scan of DailyNoteService.readExistingTasks: walk the lines after
the header (absolute index `i`), stop at the next `#` heading, collect
checkbox lines; `completed` is `match[2].toLowerCase() === 'x'`. -/
def collectSection : List (List Char) → Nat → List SyncedTask
  | [], _ => []
  | line :: rest, i =>
    if (trimWs line).head? = some '#' then []
    else
      match checkboxState line with
      | some c =>
        ⟨cleanTaskText line, line, c = 'x' || c = 'X', i⟩ :: collectSection rest (i + 1)
      | none => collectSection rest (i + 1)

/-- DailyNoteService.readExistingTasks (lines 534-571): find the section by
trimmed-equality with the configured header, then scan it. -/
def readExistingTasks (sectionHeader content : List Char) : List SyncedTask :=
  let lines := content.splitOn '\n'
  match lines.findIdx? (fun line => decide (trimWs line = trimWs sectionHeader)) with
  | none => []
  | some sectionIndex => collectSection (lines.drop (sectionIndex + 1)) (sectionIndex + 1)

/-- DailyNoteService.findSectionInsertPoint (lines 578-598): character offset
just past the header line's newline, or `none` when the header is absent. -/
def findSectionInsertPoint (sectionHeader content : List Char) : Option Nat :=
  let lines := content.splitOn '\n'
  match lines.findIdx? (fun line => decide (trimWs line = trimWs sectionHeader)) with
  | none => none
  | some headerIndex =>
    some (((lines.take (headerIndex + 1)).map (fun l => l.length + 1)).sum)

/-- The dedup key set built in DailyNoteService.appendNewTasks (lines 506-509):
clean texts of the existing tasks, `filter(t => !t.completed)`. -/
def dedupKeys (sectionHeader content : List Char) : List (List Char) :=
  ((readExistingTasks sectionHeader content).filter (fun t => !t.completed)).map
    (fun t => t.cleanText)

/-- `tasks.filter(t => !existingCleanTexts.has(t.cleanText))` (line 512). -/
def newTasksOf (sectionHeader content : List Char) (tasks : List PriorityTask) :
    List PriorityTask :=
  tasks.filter (fun t => decide (t.cleanText ∉ dedupKeys sectionHeader content))

/-- DailyNoteService.formatTask (lines 608-627):
`- [ ] {cleanText} {priorityEmoji} {link}`.  Link generation goes through
Obsidian's fileManager, an external collaborator, abstracted as `link`. -/
def formatTask (link : PriorityTask → List Char) (t : PriorityTask) : List Char :=
  '-' :: ' ' :: '[' :: ' ' :: ']' :: ' ' :: (t.cleanText ++ ' '
    :: (if t.priority = Priority.highest then '⏫' else '🔺') :: ' ' :: link t)

/-- DailyNoteService.appendNewTasks (lines 494-528), with vault I/O abstracted:
takes the daily-note content, returns the count and the new content. -/
def appendNewTasks (link : PriorityTask → List Char) (sectionHeader : List Char)
    (tasks : List PriorityTask) (content : List Char) : Nat × List Char :=
  match findSectionInsertPoint sectionHeader content with
  | none => (0, content)
  | some insertPoint =>
    let newTasks := newTasksOf sectionHeader content tasks
    if newTasks.length = 0 then (0, content)
    else
      let taskBlock := List.intercalate ['\n'] (newTasks.map (formatTask link)) ++ ['\n']
      (newTasks.length, content.take insertPoint ++ taskBlock ++ content.drop insertPoint)

/-- The line search of ReverseSyncService.syncToggleToSource (lines 110-120):
first checkbox line whose clean text equals the daily-note task's. -/
def findMatchingLineIdx (cleanText : List Char) (lines : List (List Char)) : Option Nat :=
  lines.findIdx? (fun line => isCheckbox line && decide (cleanTaskText line = cleanText))

/-- ReverseSyncService.syncToggleToSource (lines 92-147) from the point the
source content is known; vault read/write abstracted to content in /
(written?, content) out.  The missing-sourcePath guard is kept; the
file-lookup guard lives in the external vault. -/
def syncToggleToSource (state : TaskState) (checked : Bool) (content : List Char) :
    Bool × List Char :=
  match state.sourcePath with
  | none => (false, content)
  | some _ =>
    let lines := content.splitOn '\n'
    match findMatchingLineIdx state.cleanText lines with
    | none => (false, content)
    | some matchedIndex =>
      let oldLine := lines.getD matchedIndex []
      let newLine := if checked then replaceUnchecked oldLine else replaceChecked oldLine
      if oldLine = newLine then (false, content)
      else (true, List.intercalate ['\n'] (lines.set matchedIndex newLine))

/-- TaskSyncPlugin.filterByPriority (src/main.ts, lines 156-162). -/
def filterByPriority (includeHighest includeHigh : Bool) (tasks : List PriorityTask) :
    List PriorityTask :=
  tasks.filter (fun t =>
    match t.priority with
    | Priority.highest => includeHighest
    | Priority.high => includeHigh)

/-- The task list handed to appendNewTasks by TaskSyncPlugin.syncPriorityTasks
(src/main.ts, lines 123-135): scanning is vault I/O, so the scan result
`allTasks` is a parameter; `file` is the optional changed file. -/
def tasksPassedToAppend (includeHighest includeHigh : Bool) (taskLimit : Nat)
    (file : Option Unit) (allTasks : List PriorityTask) : List PriorityTask :=
  let filteredTasks := filterByPriority includeHighest includeHigh allTasks
  if file = none ∧ 0 < taskLimit then filteredTasks.take taskLimit else filteredTasks

/-- The pendingFile update in FileWatcherService.handleModify (lines 66-73):
`none` stands for "full-vault scan pending", `some p` for "single-document
scan of p pending". -/
def updatePendingFile (pendingFile : Option String) (file : String) : Option String :=
  match pendingFile with
  | some p => if p ≠ file then none else some file
  | none => some file

/-- pendingFile after a burst of eligible modify notifications inside one
debounce window (the timer is reset on every event, so none of them fires). -/
def pendingAfter (events : List String) : Option String :=
  events.foldl updatePendingFile none

example : pendingAfter ["A.md", "B.md"] = none := by decide
example : pendingAfter ["A.md", "B.md", "A.md"] = some "A.md" := by decide
example :
    (appendNewTasks (fun _ => "[[S]]".toList) "## H".toList
      [⟨"- [ ] Foo ⏫".toList, "Foo".toList, "S.md".toList, 0, Priority.highest⟩]
      "## H\n- [x] Foo\n".toList).1 = 1 := by decide

/-! ### Generic facts about the matchTasks inner loop -/

theorem bestStep_isSome (newLineNum : Nat) (n : TaskState) (consumed : List Nat)
    (b : TaskState × Nat) (p : Nat × TaskState) :
    (bestStep newLineNum n consumed (some b) p).isSome := by
  unfold bestStep
  by_cases hc : p.1 ∈ consumed
  · simp [hc]
  · by_cases h2 : 2 ≤ score p.1 p.2 newLineNum n ∧ b.2 < score p.1 p.2 newLineNum n
    · simp [hc, h2]
    · simp [hc, h2]

theorem foldl_bestStep_isSome (newLineNum : Nat) (n : TaskState) (consumed : List Nat)
    (l : List (Nat × TaskState)) (b : TaskState × Nat) :
    (l.foldl (bestStep newLineNum n consumed) (some b)).isSome := by
  induction l generalizing b with
  | nil => rfl
  | cons p l ih =>
    simp only [List.foldl_cons]
    rcases h : bestStep newLineNum n consumed (some b) p with _ | b'
    · have := bestStep_isSome newLineNum n consumed b p
      rw [h] at this
      simp at this
    · exact ih b'

/-- Each inner-loop step either keeps the accumulator or installs the current
unconsumed entry together with its score (which is then at least 2). -/
theorem bestStep_cases (newLineNum : Nat) (n : TaskState) (consumed : List Nat)
    (best : Option (TaskState × Nat)) (p : Nat × TaskState) :
    bestStep newLineNum n consumed best p = best
      ∨ (p.1 ∉ consumed
          ∧ bestStep newLineNum n consumed best p = some (p.2, score p.1 p.2 newLineNum n)
          ∧ 2 ≤ score p.1 p.2 newLineNum n) := by
  by_cases hc : p.1 ∈ consumed
  · left
    unfold bestStep
    exact if_pos hc
  · cases best with
    | none =>
      by_cases hs : 2 ≤ score p.1 p.2 newLineNum n
      · refine Or.inr ⟨hc, ?_, hs⟩
        unfold bestStep
        rw [if_neg hc]
        exact if_pos hs
      · left
        unfold bestStep
        rw [if_neg hc]
        exact if_neg hs
    | some b =>
      by_cases hs : 2 ≤ score p.1 p.2 newLineNum n ∧ b.2 < score p.1 p.2 newLineNum n
      · refine Or.inr ⟨hc, ?_, hs.1⟩
        unfold bestStep
        rw [if_neg hc]
        exact if_pos hs
      · left
        unfold bestStep
        rw [if_neg hc]
        exact if_neg hs

/-- Provenance: a `some` result of the inner loop is either the starting
accumulator or comes from an unconsumed entry of the list, with its score. -/
theorem foldl_bestStep_provenance (newLineNum : Nat) (n : TaskState) (consumed : List Nat)
    (l : List (Nat × TaskState)) (b₀ : Option (TaskState × Nat)) (r : TaskState × Nat)
    (h : l.foldl (bestStep newLineNum n consumed) b₀ = some r) :
    b₀ = some r
      ∨ ∃ p ∈ l, p.1 ∉ consumed ∧ r = (p.2, score p.1 p.2 newLineNum n)
          ∧ 2 ≤ score p.1 p.2 newLineNum n := by
  induction l generalizing b₀ with
  | nil => exact Or.inl h
  | cons p l ih =>
    simp only [List.foldl_cons] at h
    rcases ih _ h with hb | ⟨q, hq, hqc, hqr, hqs⟩
    · rcases bestStep_cases newLineNum n consumed b₀ p with hk | ⟨hpc, hset, hps⟩
      · rw [hk] at hb
        exact Or.inl hb
      · rw [hset] at hb
        obtain ⟨rfl⟩ : (p.2, score p.1 p.2 newLineNum n) = r := Option.some_injective _ hb
        exact Or.inr ⟨p, List.mem_cons_self p l, hpc, rfl, hps⟩
    · exact Or.inr ⟨q, List.mem_cons_of_mem p hq, hqc, hqr, hqs⟩

/-- Once the accumulator holds a score at least as large as every remaining
unconsumed candidate, the rest of the loop leaves it unchanged (the update
requires a strictly greater score). -/
theorem foldl_bestStep_keeps_max (newLineNum : Nat) (n : TaskState) (consumed : List Nat)
    (l : List (Nat × TaskState)) (o : TaskState) (s : Nat)
    (hle : ∀ p ∈ l, p.1 ∉ consumed → score p.1 p.2 newLineNum n ≤ s) :
    l.foldl (bestStep newLineNum n consumed) (some (o, s)) = some (o, s) := by
  induction l with
  | nil => rfl
  | cons p l ih =>
    have hstep : bestStep newLineNum n consumed (some (o, s)) p = some (o, s) := by
      unfold bestStep
      by_cases hc : p.1 ∈ consumed
      · simp [hc]
      · have hs := hle p (List.mem_cons_self p l) hc
        have : ¬(2 ≤ score p.1 p.2 newLineNum n ∧ s < score p.1 p.2 newLineNum n) := by
          rintro ⟨-, hlt⟩
          omega
        simp [hc, this]
    simp only [List.foldl_cons, hstep]
    exact ih (fun q hq hqc => hle q (List.mem_cons_of_mem p hq) hqc)

/-- The inner loop selects the first unconsumed entry whose qualifying score
is strictly above every earlier unconsumed entry and at least every later
unconsumed entry: earliest-in-iteration-order wins among ties. -/
theorem bestMatchFor_first_max (newLineNum : Nat) (n : TaskState) (consumed : List Nat)
    (l₁ l₂ : List (Nat × TaskState)) (k₀ : Nat) (o : TaskState)
    (hk : k₀ ∉ consumed) (hs : 2 ≤ score k₀ o newLineNum n)
    (hlt : ∀ p ∈ l₁, p.1 ∉ consumed → score p.1 p.2 newLineNum n < score k₀ o newLineNum n)
    (hle : ∀ p ∈ l₂, p.1 ∉ consumed → score p.1 p.2 newLineNum n ≤ score k₀ o newLineNum n) :
    bestMatchFor (l₁ ++ (k₀, o) :: l₂) consumed newLineNum n
      = some (o, score k₀ o newLineNum n) := by
  unfold bestMatchFor
  rw [List.foldl_append]
  rcases h1 : l₁.foldl (bestStep newLineNum n consumed) none with _ | ⟨o', s'⟩
  · simp only [List.foldl_cons]
    have hstep : bestStep newLineNum n consumed none (k₀, o)
        = some (o, score k₀ o newLineNum n) := by
      unfold bestStep
      simp [hk, hs]
    rw [hstep]
    exact foldl_bestStep_keeps_max newLineNum n consumed l₂ o _ hle
  · rcases foldl_bestStep_provenance newLineNum n consumed l₁ none (o', s') h1 with hno |
      ⟨p, hp, hpc, hpr, -⟩
    · simp at hno
    · have hlt' : s' < score k₀ o newLineNum n := by
        have := hlt p hp hpc
        have hr : s' = score p.1 p.2 newLineNum n := congrArg Prod.snd hpr
        omega
      simp only [List.foldl_cons]
      have hstep : bestStep newLineNum n consumed (some (o', s')) (k₀, o)
          = some (o, score k₀ o newLineNum n) := by
        unfold bestStep
        simp [hk, hs, hlt']
      rw [hstep]
      exact foldl_bestStep_keeps_max newLineNum n consumed l₂ o _ hle

/-- If some unconsumed entry qualifies (score at least 2), the inner loop
returns a match. -/
theorem foldl_bestStep_isSome_of_mem (newLineNum : Nat) (n : TaskState) (consumed : List Nat)
    (l : List (Nat × TaskState)) (k₀ : Nat) (o : TaskState)
    (hmem : (k₀, o) ∈ l) (hk : k₀ ∉ consumed) (hs : 2 ≤ score k₀ o newLineNum n) :
    ∀ b₀, (l.foldl (bestStep newLineNum n consumed) b₀).isSome := by
  induction l with
  | nil => simp at hmem
  | cons p l ih =>
    intro b₀
    simp only [List.foldl_cons]
    rcases List.mem_cons.mp hmem with heq | hmem'
    · cases b₀ with
      | none =>
        have hstep : bestStep newLineNum n consumed none (k₀, o)
            = some (o, score k₀ o newLineNum n) := by
          unfold bestStep
          simp [hk, hs]
        rw [← heq, hstep]
        exact foldl_bestStep_isSome newLineNum n consumed l _
      | some b =>
        rcases h : bestStep newLineNum n consumed (some b) p with _ | b'
        · have := bestStep_isSome newLineNum n consumed b p
          rw [h] at this
          simp at this
        · exact foldl_bestStep_isSome newLineNum n consumed l b'
    · exact ih hmem' _

/-! ### Concrete snapshots used as counterexamples and witnesses -/

def c2old : TaskState :=
  ⟨0, "alpha".toList, some Priority.high, false, none, "- [ ] alpha 🔺".toList⟩

def c2new : TaskState :=
  ⟨0, "beta".toList, some Priority.high, false, none, "- [ ] beta 🔺".toList⟩

def c3old0 : TaskState := ⟨0, "x".toList, none, false, none, "- [ ] x".toList⟩

def c3old4 : TaskState := ⟨4, "x".toList, none, false, none, "- [ ] x".toList⟩

def c3new5 : TaskState := ⟨5, "x".toList, none, false, none, "- [ ] x".toList⟩

def buyMilkOld : TaskState :=
  ⟨2, "Buy milk".toList, some Priority.high, false, none, "- [ ] Buy milk 🔺".toList⟩

def buyMilkNew : TaskState :=
  ⟨5, "Buy milk".toList, some Priority.high, false, none, "- [ ] Buy milk 🔺".toList⟩

def c6old : TaskState :=
  ⟨7, "Ship it".toList, some Priority.high, false, none, "- [ ] Ship it 🔺".toList⟩

def c6new : TaskState :=
  ⟨9, "Ship it".toList, none, true, none, "- [x] Ship it".toList⟩

/-- C2 counterexample: the old and new tasks have different clean texts, equal
priority tiers and equal line indices, yet matchTasks pairs them (the
candidate scores 1+1 = 2 and the threshold is "score >= 2", so it is
accepted) — the claim says such a candidate must never be accepted. -/
theorem c2_counterexample :
    c2old.cleanText ≠ c2new.cleanText ∧ c2old.priority = c2new.priority
      ∧ matchTasks [(0, c2old)] [(0, c2new)] = [⟨c2new, some c2old, false⟩] := by
  decide

/-- C2 amended: for every pair of tasks with different clean texts but equal
priority tiers at the same line index, the candidate scores exactly 2 and IS
accepted by matchTasks (here with singleton snapshots, where no competing
candidate exists): priority plus position together meet the score-2
threshold. -/
theorem c2_amended_same_priority_same_index_matches (k : Nat) (o n : TaskState)
    (htext : o.cleanText ≠ n.cleanText) (hprio : o.priority = n.priority) :
    score k o k n = 2
      ∧ matchTasks [(k, o)] [(k, n)] = [⟨n, some o, o.checked != n.checked⟩] := by
  have hs : score k o k n = 2 := by simp [score, htext, hprio]
  refine ⟨hs, ?_⟩
  have hbm : bestMatchFor [(k, o)] [] k n = some (o, 2) := by
    unfold bestMatchFor bestStep
    simp [hs]
  simp [matchTasks, matchTasksGo, hbm]

/-- Witness for c2_amended_same_priority_same_index_matches at concrete tasks. -/
theorem c2_amended_witness :
    score 0 c2old 0 c2new = 2
      ∧ matchTasks [(0, c2old)] [(0, c2new)]
          = [⟨c2new, some c2old, c2old.checked != c2new.checked⟩] :=
  c2_amended_same_priority_same_index_matches 0 c2old c2new (by decide) (by decide)

/-- C3 counterexample: the two old candidates tie at score 4 for the new task
at index 5; the claim demands the one with the smaller absolute index delta
(index 4, delta 1) but matchTasks keeps the first encountered (index 0,
delta 5), because the accumulator is only replaced on a strictly greater
score. -/
theorem c3_counterexample :
    score 0 c3old0 5 c3new5 = score 4 c3old4 5 c3new5
      ∧ matchTasks [(0, c3old0), (4, c3old4)] [(5, c3new5)]
          = [⟨c3new5, some c3old0, false⟩] := by
  decide

/-- C3 amended: among qualifying candidates the highest score wins, and ties
are broken by iteration order alone — the first old entry whose score is
strictly above every earlier unconsumed candidate and at least every later
one is chosen (for snapshots this is the lowest old line index); the
absolute line-index delta plays no role. -/
theorem c3_amended_first_highest_score_wins (l₁ l₂ rest : List (Nat × TaskState))
    (k₀ newLineNum : Nat) (o n : TaskState)
    (hs : 2 ≤ score k₀ o newLineNum n)
    (hlt : ∀ p ∈ l₁, score p.1 p.2 newLineNum n < score k₀ o newLineNum n)
    (hle : ∀ p ∈ l₂, score p.1 p.2 newLineNum n ≤ score k₀ o newLineNum n) :
    (matchTasks (l₁ ++ (k₀, o) :: l₂) ((newLineNum, n) :: rest)).head?
      = some ⟨n, some o, o.checked != n.checked⟩ := by
  have hbm := bestMatchFor_first_max newLineNum n [] l₁ l₂ k₀ o (by simp) hs
    (fun p hp _ => hlt p hp) (fun p hp _ => hle p hp)
  simp [matchTasks, matchTasksGo, hbm]

/-- Witness for c3_amended_first_highest_score_wins: the tied candidate at
index 0 is chosen over the closer one at index 4. -/
theorem c3_amended_witness :
    (matchTasks ([] ++ (0, c3old0) :: [(4, c3old4)]) [(5, c3new5)]).head?
      = some ⟨c3new5, some c3old0, c3old0.checked != c3new5.checked⟩ :=
  c3_amended_first_highest_score_wins [] [(4, c3old4)] [] 0 5 c3old0 c3new5
    (by decide) (by simp) (by decide)

/-- C6: clean-text equality alone suffices.  A candidate with equal clean
text but different priority tier and different line index scores exactly 3;
whenever some old entry has the new task's clean text, the new task is
matched (oldState is not none); and in the concrete scenario "Buy milk"
moved from index 2 to index 5 the two snapshots are matched. -/
theorem c6_text_equality_alone_matches (olds rest : List (Nat × TaskState))
    (k₀ newLineNum : Nat) (o n : TaskState)
    (hmem : (k₀, o) ∈ olds) (htext : o.cleanText = n.cleanText) :
    (o.priority ≠ n.priority → k₀ ≠ newLineNum → score k₀ o newLineNum n = 3)
      ∧ (∃ o', (matchTasks olds ((newLineNum, n) :: rest)).head?
          = some ⟨n, some o', o'.checked != n.checked⟩)
      ∧ matchTasks [(2, buyMilkOld)] [(5, buyMilkNew)]
          = [⟨buyMilkNew, some buyMilkOld, false⟩] := by
  refine ⟨fun hp hk => by simp [score, htext, hp, hk], ?_, by decide⟩
  have hs : 2 ≤ score k₀ o newLineNum n := by
    unfold score
    rw [if_pos htext]
    omega
  have hsome := foldl_bestStep_isSome_of_mem newLineNum n [] olds k₀ o hmem (by simp) hs none
  rcases hbm : bestMatchFor olds [] newLineNum n with _ | ⟨o', s⟩
  · unfold bestMatchFor at hbm
    rw [hbm] at hsome
    simp at hsome
  · exact ⟨o', by simp [matchTasks, matchTasksGo, hbm]⟩

/-- Witness for c6_text_equality_alone_matches: text-equal candidate with
different priority and index. -/
theorem c6_witness :
    (c6old.priority ≠ c6new.priority → (7 : Nat) ≠ 9 → score 7 c6old 9 c6new = 3)
      ∧ (∃ o', (matchTasks [(7, c6old)] [(9, c6new)]).head?
          = some ⟨c6new, some o', o'.checked != c6new.checked⟩)
      ∧ matchTasks [(2, buyMilkOld)] [(5, buyMilkNew)]
          = [⟨buyMilkNew, some buyMilkOld, false⟩] :=
  c6_text_equality_alone_matches [(7, c6old)] [] 7 9 c6old c6new (by decide) (by decide)

/-- Well-formedness of a snapshot association list: every entry is keyed by
its state's line number, as in the maps built by parseAllTaskStates. -/
def WFStates (l : List (Nat × TaskState)) : Prop :=
  ∀ p ∈ l, (p.2).lineNumber = p.1

instance (l : List (Nat × TaskState)) : Decidable (WFStates l) :=
  List.decidableBAll _ l

theorem bestMatchFor_unconsumed (newLineNum : Nat) (n : TaskState) (consumed : List Nat)
    (olds : List (Nat × TaskState)) (o : TaskState) (s : Nat)
    (hwf : WFStates olds) (h : bestMatchFor olds consumed newLineNum n = some (o, s)) :
    o.lineNumber ∉ consumed := by
  rcases foldl_bestStep_provenance newLineNum n consumed olds none (o, s) h with h0 |
    ⟨p, hp, hpc, hpr, -⟩
  · simp at h0
  · have ho : o = p.2 := congrArg Prod.fst hpr
    rw [ho, hwf p hp]
    exact hpc

theorem matchTasksGo_oldLineNumbers (olds : List (Nat × TaskState)) (hwf : WFStates olds) :
    ∀ (news : List (Nat × TaskState)) (consumed : List Nat),
      (((matchTasksGo olds news consumed).filterMap TaskMatch.oldState).map
          TaskState.lineNumber).Nodup
        ∧ ∀ x ∈ ((matchTasksGo olds news consumed).filterMap TaskMatch.oldState).map
            TaskState.lineNumber, x ∉ consumed := by
  intro news
  induction news with
  | nil =>
    intro consumed
    simp [matchTasksGo]
  | cons q rest ih =>
    intro consumed
    obtain ⟨k, n⟩ := q
    rcases hbm : bestMatchFor olds consumed k n with _ | ⟨o, s⟩
    · have := ih consumed
      simpa [matchTasksGo, hbm, List.filterMap_cons] using this
    · have hno : o.lineNumber ∉ consumed :=
        bestMatchFor_unconsumed k n consumed olds o s hwf hbm
      obtain ⟨ih1, ih2⟩ := ih (o.lineNumber :: consumed)
      constructor
      · simp only [matchTasksGo, hbm, List.filterMap_cons, List.map_cons, List.nodup_cons]
        refine ⟨fun hmem => ?_, ih1⟩
        exact (ih2 _ hmem) (List.mem_cons_self _ _)
      · intro x hx
        simp only [matchTasksGo, hbm, List.filterMap_cons, List.map_cons,
          List.mem_cons] at hx
        rcases hx with rfl | hx'
        · exact hno
        · exact fun hxc => (ih2 x hx') (List.mem_cons_of_mem _ hxc)

/-- C9: matching is one-to-one on old tasks — in the output of matchTasks the
line numbers of the consumed old states are pairwise distinct, for every
pair of snapshots (whose entries are keyed by their line numbers, as
parseAllTaskStates builds them). -/
theorem c9_old_tasks_consumed_once (olds news : List (Nat × TaskState))
    (hwf : WFStates olds) :
    (((matchTasks olds news).filterMap TaskMatch.oldState).map TaskState.lineNumber).Nodup :=
  (matchTasksGo_oldLineNumbers olds hwf news []).1

/-- Witness for c9_old_tasks_consumed_once: two new tasks both equal in text
to a single old task; the old task is consumed by the first only. -/
theorem c9_witness :
    (((matchTasks [(2, buyMilkOld)] [(5, buyMilkNew), (6, buyMilkNew)]).filterMap
        TaskMatch.oldState).map TaskState.lineNumber).Nodup :=
  c9_old_tasks_consumed_once [(2, buyMilkOld)] [(5, buyMilkNew), (6, buyMilkNew)] (by decide)

/-- C4 (code bug): within one debounce window, after notifications for A.md
and B.md have widened the pending scope to a full-vault scan (pendingFile
null), a third notification narrows it back to a single-document scan,
because the full-vault state is indistinguishable from the initial state in
the `if (this.pendingFile && ...)` test. -/
theorem c4_pending_scope_narrows_back :
    pendingAfter ["A.md", "B.md"] = none
      ∧ pendingAfter ["A.md", "B.md", "A.md"] = some "A.md" := by
  decide

/-- C8: the taskLimit cap applies only to full-vault scans.  With a changed
file the filtered tasks are passed through unchanged regardless of the
limit; with no file and a positive limit at most taskLimit tasks are
passed. -/
theorem c8_task_limit_only_full_scans (includeHighest includeHigh : Bool) (taskLimit : Nat)
    (allTasks : List PriorityTask) :
    tasksPassedToAppend includeHighest includeHigh taskLimit (some ()) allTasks
        = filterByPriority includeHighest includeHigh allTasks
      ∧ (0 < taskLimit →
          (tasksPassedToAppend includeHighest includeHigh taskLimit none allTasks).length
            ≤ taskLimit) := by
  constructor
  · simp [tasksPassedToAppend]
  · intro h
    unfold tasksPassedToAppend
    rw [if_pos ⟨rfl, h⟩]
    exact List.length_take_le taskLimit _

/-- Witness for c8_task_limit_only_full_scans: two high-priority tasks,
limit 1. -/
theorem c8_witness :
    tasksPassedToAppend true true 1 (some ())
        [⟨"- [ ] a 🔺".toList, "a".toList, "S.md".toList, 0, Priority.high⟩,
         ⟨"- [ ] b 🔺".toList, "b".toList, "S.md".toList, 1, Priority.high⟩]
        = filterByPriority true true
        [⟨"- [ ] a 🔺".toList, "a".toList, "S.md".toList, 0, Priority.high⟩,
         ⟨"- [ ] b 🔺".toList, "b".toList, "S.md".toList, 1, Priority.high⟩]
      ∧ (0 < 1 →
          (tasksPassedToAppend true true 1 none
            [⟨"- [ ] a 🔺".toList, "a".toList, "S.md".toList, 0, Priority.high⟩,
             ⟨"- [ ] b 🔺".toList, "b".toList, "S.md".toList, 1, Priority.high⟩]).length ≤ 1) :=
  c8_task_limit_only_full_scans true true 1 _

/-- C1 counterexample: the daily-note section contains a COMPLETED line whose
clean text equals the candidate task's clean text, yet appendNewTasks
inserts the task (count 1): completed lines are filtered out of the dedup
set by `filter(t => !t.completed)`, contradicting the claim that both
completed and uncompleted lines block insertion. -/
theorem c1_counterexample :
    ((readExistingTasks "## H".toList "## H\n- [x] Foo\n".toList).map
        (fun e => (e.cleanText, e.completed)) = [("Foo".toList, true)])
      ∧ (appendNewTasks (fun _ => "[[S]]".toList) "## H".toList
          [⟨"- [ ] Foo ⏫".toList, "Foo".toList, "S.md".toList, 0, Priority.highest⟩]
          "## H\n- [x] Foo\n".toList).1 = 1 := by
  decide

/-- C1 amended: the dedup set is built from the UNCOMPLETED checkbox lines of
the section only — a candidate task survives into the inserted list exactly
when no uncompleted existing line shares its clean text (completed lines do
not block insertion), and appendNewTasks inserts exactly that list when the
section exists. -/
theorem c1_amended_dedup_uncompleted_only (link : PriorityTask → List Char)
    (sectionHeader content : List Char) (tasks : List PriorityTask)
    (t : PriorityTask) (hmem : t ∈ tasks) :
    (t ∈ newTasksOf sectionHeader content tasks
      ↔ ∀ e ∈ readExistingTasks sectionHeader content,
          e.completed = false → e.cleanText ≠ t.cleanText)
      ∧ (appendNewTasks link sectionHeader tasks content).1
          = if findSectionInsertPoint sectionHeader content = none then 0
            else (newTasksOf sectionHeader content tasks).length := by
  constructor
  · rw [newTasksOf, List.mem_filter]
    simp only [hmem, true_and, decide_eq_true_eq, dedupKeys, List.mem_map, List.mem_filter,
      Bool.not_eq_true']
    constructor
    · intro hno e he hec heq
      exact hno ⟨e, ⟨he, hec⟩, heq⟩
    · rintro hall ⟨e, ⟨he, hec⟩, heq⟩
      exact hall e he hec heq
  · rcases hf : findSectionInsertPoint sectionHeader content with _ | ip
    · simp [appendNewTasks, hf]
    · by_cases hz : (newTasksOf sectionHeader content tasks).length = 0
      · simp [appendNewTasks, hf, hz]
      · simp [appendNewTasks, hf, hz]

/-- Witness for c1_amended_dedup_uncompleted_only: the single existing line
is uncompleted and equal in clean text, so the task is deduplicated. -/
theorem c1_amended_witness :
    (⟨"- [ ] Foo ⏫".toList, "Foo".toList, "S.md".toList, 0, Priority.highest⟩ ∈
        newTasksOf "## H".toList "## H\n- [ ] Foo\n".toList
          [⟨"- [ ] Foo ⏫".toList, "Foo".toList, "S.md".toList, 0, Priority.highest⟩]
      ↔ ∀ e ∈ readExistingTasks "## H".toList "## H\n- [ ] Foo\n".toList,
          e.completed = false
            → e.cleanText ≠ (⟨"- [ ] Foo ⏫".toList, "Foo".toList, "S.md".toList, 0,
                Priority.highest⟩ : PriorityTask).cleanText)
      ∧ (appendNewTasks (fun _ => "[[S]]".toList) "## H".toList
          [⟨"- [ ] Foo ⏫".toList, "Foo".toList, "S.md".toList, 0, Priority.highest⟩]
          "## H\n- [ ] Foo\n".toList).1
          = if findSectionInsertPoint "## H".toList "## H\n- [ ] Foo\n".toList = none then 0
            else (newTasksOf "## H".toList "## H\n- [ ] Foo\n".toList
              [⟨"- [ ] Foo ⏫".toList, "Foo".toList, "S.md".toList, 0,
                Priority.highest⟩]).length :=
  c1_amended_dedup_uncompleted_only (fun _ => "[[S]]".toList) "## H".toList
    "## H\n- [ ] Foo\n".toList _ _ (List.mem_singleton.mpr rfl)

/-- C7: when no line of the daily note trim-equals the configured section
header, appendNewTasks returns 0 and the content is unchanged — the section
is never auto-created and no partial write occurs. -/
theorem c7_missing_section_noop (link : PriorityTask → List Char) (sectionHeader : List Char)
    (tasks : List PriorityTask) (content : List Char)
    (h : ∀ line ∈ content.splitOn '\n', trimWs line ≠ trimWs sectionHeader) :
    appendNewTasks link sectionHeader tasks content = (0, content) := by
  have hfind : (content.splitOn '\n').findIdx?
      (fun line => decide (trimWs line = trimWs sectionHeader)) = none := by
    rw [List.findIdx?_eq_none_iff]
    intro x hx
    simp [h x hx]
  simp [appendNewTasks, findSectionInsertPoint, hfind]

/-- Witness for c7_missing_section_noop: a note without the section. -/
theorem c7_witness :
    appendNewTasks (fun _ => "[[S]]".toList) "## H".toList
        [⟨"- [ ] Foo ⏫".toList, "Foo".toList, "S.md".toList, 0, Priority.highest⟩]
        "hello\nworld".toList
      = (0, "hello\nworld".toList) :=
  c7_missing_section_noop _ _ _ _ (by decide)

theorem replaceUnchecked_eq_self_of_completed (line : List Char)
    (h : isCompleted line = true) : replaceUnchecked line = line := by
  unfold isCompleted checkboxState at h
  unfold replaceUnchecked
  rcases hp : parseCheckbox line with _ | ⟨ws1, ws2, c, rest⟩
  · rfl
  · rw [hp] at h
    dsimp only at h ⊢
    by_cases hcl : c = ' ' ∨ c = 'x' ∨ c = 'X'
    · rw [if_pos hcl] at h
      simp only [Bool.or_eq_true, decide_eq_true_eq] at h
      have hne : ¬ c = ' ' := by
        rcases h with rfl | rfl <;> decide
      rw [if_neg hne]
    · rw [if_neg hcl] at h
      simp at h

theorem replaceChecked_eq_self_of_uncompleted (line : List Char)
    (h : isUncompleted line = true) : replaceChecked line = line := by
  unfold isUncompleted checkboxState at h
  rw [decide_eq_true_eq] at h
  unfold replaceChecked
  rcases hp : parseCheckbox line with _ | ⟨ws1, ws2, c, rest⟩
  · rfl
  · rw [hp] at h
    dsimp only at h ⊢
    by_cases hcl : c = ' ' ∨ c = 'x' ∨ c = 'X'
    · rw [if_pos hcl] at h
      have hc : c = ' ' := Option.some_injective _ h
      have hne : ¬ (c = 'x' ∨ c = 'X') := by
        rw [hc]
        decide
      rw [if_neg hne]
    · rw [if_neg hcl] at h
      simp at h

/-- C10: reverse write-back is a no-op on a consistent source.  If the first
checkbox line of the source whose clean text equals the daily-note task's
clean text is already in the requested checked state, syncToggleToSource
returns false and leaves the content unchanged; lines after that first
match are never considered, since the conclusion holds whatever they
contain. -/
theorem c10_consistent_source_not_written (state : TaskState) (checked : Bool)
    (content : List Char) (i : Nat)
    (hfind : findMatchingLineIdx state.cleanText (content.splitOn '\n') = some i)
    (hstate : (checked = true ∧ isCompleted ((content.splitOn '\n').getD i []) = true)
      ∨ (checked = false ∧ isUncompleted ((content.splitOn '\n').getD i []) = true)) :
    syncToggleToSource state checked content = (false, content) := by
  unfold syncToggleToSource
  rcases hsp : state.sourcePath with _ | sp
  · rfl
  · simp only [hfind]
    rcases hstate with ⟨rfl, hc⟩ | ⟨rfl, hc⟩
    · simp only [eq_self_iff_true, if_true]
      rw [if_pos (replaceUnchecked_eq_self_of_completed _ hc).symm]
    · simp only [Bool.false_eq_true, if_false]
      rw [if_pos (replaceChecked_eq_self_of_uncompleted _ hc).symm]

/-- Witness for c10_consistent_source_not_written: checking a task whose
source line is already checked. -/
theorem c10_witness :
    syncToggleToSource ⟨3, "Foo".toList, none, true, some "S.md".toList, "- [x] Foo".toList⟩
        true "- [x] Foo".toList
      = (false, "- [x] Foo".toList) :=
  c10_consistent_source_not_written
    ⟨3, "Foo".toList, none, true, some "S.md".toList, "- [x] Foo".toList⟩ true
    "- [x] Foo".toList 0 (by decide) (Or.inl ⟨rfl, by decide⟩)

/-- C5 counterexample: cleanTaskText is not idempotent.  Stripping the first
checkbox prefix of `- [ ] - [ ] x` exposes a second checkbox prefix, which
only the second application removes. -/
theorem c5_counterexample :
    cleanTaskText (cleanTaskText "- [ ] - [ ] x".toList)
      ≠ cleanTaskText "- [ ] - [ ] x".toList := by
  decide

/-! ### Identity lemmas for the cleanTaskText pipeline steps -/

theorem parseCheckbox_mem {l : List Char} {x : List Char × List Char × Char × List Char}
    (h : parseCheckbox l = some x) : '[' ∈ l := by
  unfold parseCheckbox at h
  split at h
  · rename_i r2 heq1
    split at h
    · rename_i c rest heq2
      have h1 : '[' ∈ r2.dropWhile isSpace := by
        rw [heq2]
        exact List.mem_cons_self _ _
      have h2 : '[' ∈ r2 := (List.dropWhile_suffix _).subset h1
      have h3 : '[' ∈ l.dropWhile isSpace := by
        rw [heq1]
        exact List.mem_cons_of_mem _ h2
      exact (List.dropWhile_suffix _).subset h3
    · simp at h
  · simp at h

theorem stripCheckbox_eq_self {l : List Char} (h : '[' ∉ l) : stripCheckbox l = l := by
  unfold stripCheckbox
  rcases hp : parseCheckbox l with _ | x
  · rfl
  · exact absurd (parseCheckbox_mem hp) h

theorem removePriority_eq_self {l : List Char}
    (h : ∀ c ∈ l, isPriorityEmoji c = false) : removePriority l = l :=
  List.filter_eq_self.mpr (fun c hc => by simp [h c hc])

theorem removeCheckEmoji_eq_self {l : List Char}
    (h : ∀ c ∈ l, isMetaEmoji c = false) : removeCheckEmoji l = l := by
  refine List.filter_eq_self.mpr (fun c hc => ?_)
  have := h c hc
  simp only [Bool.not_eq_true']
  by_contra hcc
  simp only [Bool.not_eq_false, decide_eq_true_eq] at hcc
  rw [hcc] at this
  simp [isMetaEmoji] at this

theorem removeMetaGo_eq_self :
    ∀ (fuel : Nat) (l : List Char), (∀ c ∈ l, isMetaEmoji c = false)
      → removeMetaGo fuel l = l := by
  intro fuel
  induction fuel with
  | zero => intro l _; rfl
  | succ f ih =>
    intro l h
    cases l with
    | nil => rfl
    | cons c cs =>
      have hc : isMetaEmoji c = false := h c (List.mem_cons_self c cs)
      simp only [removeMetaGo, hc, Bool.false_eq_true, if_false]
      rw [ih cs (fun d hd => h d (List.mem_cons_of_mem c hd))]

theorem removeMeta_eq_self {l : List Char}
    (h : ∀ c ∈ l, isMetaEmoji c = false) : removeMeta l = l :=
  removeMetaGo_eq_self l.length l h

theorem wikiTail_none {c : Char} {cs : List Char} (h : ¬ c = '[') :
    wikiTail (c :: cs) = none := by
  unfold wikiTail
  split
  · next heq =>
    rw [List.cons.injEq] at heq
    exact absurd heq.1 h
  · rfl

theorem removeWikilinksGo_eq_self :
    ∀ (fuel : Nat) (l : List Char), '[' ∉ l → removeWikilinksGo fuel l = l := by
  intro fuel
  induction fuel with
  | zero => intro l _; rfl
  | succ f ih =>
    intro l h
    cases l with
    | nil => rfl
    | cons c cs =>
      have hc : ¬ c = '[' := fun hcc => h (hcc ▸ List.mem_cons_self c cs)
      simp only [removeWikilinksGo, wikiTail_none hc]
      rw [ih cs (fun hmem => h (List.mem_cons_of_mem c hmem))]

theorem removeWikilinks_eq_self {l : List Char} (h : '[' ∉ l) : removeWikilinks l = l :=
  removeWikilinksGo_eq_self l.length l h

theorem mdTail_none {c : Char} {cs : List Char} (h : ¬ c = '[') :
    mdTail (c :: cs) = none := by
  unfold mdTail
  split
  · next heq =>
    rw [List.cons.injEq] at heq
    exact absurd heq.1 h
  · rfl

theorem removeMdLinksGo_eq_self :
    ∀ (fuel : Nat) (l : List Char), '[' ∉ l → removeMdLinksGo fuel l = l := by
  intro fuel
  induction fuel with
  | zero => intro l _; rfl
  | succ f ih =>
    intro l h
    cases l with
    | nil => rfl
    | cons c cs =>
      have hc : ¬ c = '[' := fun hcc => h (hcc ▸ List.mem_cons_self c cs)
      simp only [removeMdLinksGo, mdTail_none hc]
      rw [ih cs (fun hmem => h (List.mem_cons_of_mem c hmem))]

theorem removeMdLinks_eq_self {l : List Char} (h : '[' ∉ l) : removeMdLinks l = l :=
  removeMdLinksGo_eq_self l.length l h

/-! ### Whitespace normal form: output of collapse plus trim is a fixed point -/

/-- No two adjacent whitespace characters. -/
def noSpacePair (a b : Char) : Prop :=
  ¬(isSpace a = true ∧ isSpace b = true)

theorem collapseAux_head_not_space :
    ∀ (cs : List Char) (c : Char), (collapseAux true cs).head? = some c
      → isSpace c = false := by
  intro cs
  induction cs with
  | nil => intro c h; simp [collapseAux] at h
  | cons d cs ih =>
    intro c h
    by_cases hd : isSpace d
    · simp only [collapseAux, hd, if_true] at h
      exact ih c h
    · simp only [collapseAux, hd, Bool.false_eq_true, if_false] at h
      rw [List.head?_cons, Option.some.injEq] at h
      rw [← h]
      exact Bool.eq_false_iff.mpr hd

theorem collapseAux_blanks (b : Bool) (l : List Char) :
    ∀ c ∈ collapseAux b l, isSpace c = true → c = ' ' := by
  induction l generalizing b with
  | nil => intro c hc; simp [collapseAux] at hc
  | cons d cs ih =>
    intro c hc hsp
    by_cases hd : isSpace d
    · cases b with
      | true =>
        simp only [collapseAux, hd, if_true] at hc
        exact ih true c hc hsp
      | false =>
        simp only [collapseAux, hd, if_true, Bool.false_eq_true, if_false,
          List.mem_cons] at hc
        rcases hc with rfl | hc
        · rfl
        · exact ih true c hc hsp
    · simp only [collapseAux, hd, Bool.false_eq_true, if_false, List.mem_cons] at hc
      rcases hc with rfl | hc
      · exact absurd hsp (Bool.eq_false_iff.mp (Bool.eq_false_iff.mpr hd) ∘ Eq.mpr rfl)
      · exact ih false c hc hsp

theorem collapseAux_chain (b : Bool) (l : List Char) :
    List.Chain' noSpacePair (collapseAux b l) := by
  induction l generalizing b with
  | nil => simp [collapseAux]
  | cons d cs ih =>
    by_cases hd : isSpace d
    · cases b with
      | true =>
        simp only [collapseAux, hd, if_true]
        exact ih true
      | false =>
        simp only [collapseAux, hd, if_true, Bool.false_eq_true, if_false]
        rw [List.chain'_cons']
        refine ⟨fun y hy => ?_, ih true⟩
        rw [Option.mem_def] at hy
        have hns := collapseAux_head_not_space cs y hy
        rintro ⟨-, h2⟩
        rw [hns] at h2
        exact Bool.false_ne_true h2
    · simp only [collapseAux, hd, Bool.false_eq_true, if_false]
      rw [List.chain'_cons']
      refine ⟨fun y _ => ?_, ih false⟩
      rintro ⟨h1, -⟩
      exact hd h1

theorem head?_dropWhile_not_space :
    ∀ (l : List Char) (c : Char), ((l.dropWhile isSpace).head? = some c)
      → isSpace c = false := by
  intro l
  induction l with
  | nil => intro c h; simp at h
  | cons d cs ih =>
    intro c h
    by_cases hd : isSpace d
    · rw [List.dropWhile_cons_of_pos hd] at h
      exact ih c h
    · rw [List.dropWhile_cons_of_neg hd, List.head?_cons, Option.some.injEq] at h
      rw [← h]
      exact Bool.eq_false_iff.mpr hd

theorem trimWs_head {l : List Char} {c : Char} (h : (trimWs l).head? = some c) :
    isSpace c = false := by
  unfold trimWs at h
  rw [List.head?_reverse] at h
  rcases hv : (l.dropWhile isSpace).reverse.dropWhile isSpace with _ | ⟨v0, vs⟩
  · rw [hv] at h
    simp at h
  · have hne : (l.dropWhile isSpace).reverse.dropWhile isSpace ≠ [] := by
      rw [hv]
      exact List.cons_ne_nil v0 vs
    obtain ⟨t, ht⟩ := List.dropWhile_suffix (l := (l.dropWhile isSpace).reverse) isSpace
    have h4 := List.getLast?_append_of_ne_nil t hne
    have h5 : (l.dropWhile isSpace).reverse.getLast?
        = ((l.dropWhile isSpace).reverse.dropWhile isSpace).getLast? := by
      nth_rewrite 1 [← ht]
      exact h4
    have h6 := h5.trans h
    rw [List.getLast?_reverse] at h6
    exact head?_dropWhile_not_space l c h6

theorem trimWs_getLast {l : List Char} {c : Char} (h : (trimWs l).getLast? = some c) :
    isSpace c = false := by
  unfold trimWs at h
  rw [List.getLast?_reverse] at h
  exact head?_dropWhile_not_space (l.dropWhile isSpace).reverse c h

theorem trimWs_subset {l : List Char} : ∀ c ∈ trimWs l, c ∈ l := by
  intro c hc
  unfold trimWs at hc
  rw [List.mem_reverse] at hc
  have h1 := (List.dropWhile_suffix isSpace).subset hc
  rw [List.mem_reverse] at h1
  exact (List.dropWhile_suffix isSpace).subset h1

theorem trimWs_chain {l : List Char} (h : List.Chain' noSpacePair l) :
    List.Chain' noSpacePair (trimWs l) := by
  have hsym : ∀ a b, noSpacePair a b → noSpacePair b a := fun a b hab ⟨x, y⟩ => hab ⟨y, x⟩
  unfold trimWs
  have h1 : List.Chain' noSpacePair (l.dropWhile isSpace) :=
    h.suffix (List.dropWhile_suffix _)
  have h2 : List.Chain' noSpacePair (l.dropWhile isSpace).reverse :=
    (List.chain'_reverse.mpr h1).imp (fun a b hab => hsym b a hab)
  have h3 : List.Chain' noSpacePair ((l.dropWhile isSpace).reverse.dropWhile isSpace) :=
    h2.suffix (List.dropWhile_suffix _)
  exact (List.chain'_reverse.mpr h3).imp (fun a b hab => hsym b a hab)

theorem dropWhile_eq_self_of_head {l : List Char}
    (h : ∀ c, l.head? = some c → isSpace c = false) : l.dropWhile isSpace = l := by
  cases l with
  | nil => rfl
  | cons d cs =>
    have := h d rfl
    exact List.dropWhile_cons_of_neg (by simp [this])

theorem trimWs_eq_self {l : List Char}
    (hh : ∀ c, l.head? = some c → isSpace c = false)
    (hl : ∀ c, l.getLast? = some c → isSpace c = false) : trimWs l = l := by
  unfold trimWs
  rw [dropWhile_eq_self_of_head hh]
  rw [dropWhile_eq_self_of_head (fun c hc => hl c (by rwa [List.head?_reverse] at hc))]
  exact List.reverse_reverse l

theorem collapseAux_eq_self {l : List Char} (hch : List.Chain' noSpacePair l)
    (hbl : ∀ c ∈ l, isSpace c = true → c = ' ') :
    collapseAux false l = l
      ∧ ((∀ c, l.head? = some c → isSpace c = false) → collapseAux true l = l) := by
  induction l with
  | nil => exact ⟨rfl, fun _ => rfl⟩
  | cons d cs ih =>
    have hch' : List.Chain' noSpacePair cs := (List.chain'_cons'.mp hch).2
    have hpair : ∀ y ∈ cs.head?, noSpacePair d y := (List.chain'_cons'.mp hch).1
    have hbl' : ∀ c ∈ cs, isSpace c = true → c = ' ' :=
      fun c hc => hbl c (List.mem_cons_of_mem _ hc)
    obtain ⟨ihf, iht⟩ := ih hch' hbl'
    by_cases hd : isSpace d
    · have hd' : d = ' ' := hbl d (List.mem_cons_self _ _) hd
      have hcs : ∀ c, cs.head? = some c → isSpace c = false := by
        intro c hc
        have hp := hpair c (Option.mem_def.mpr hc)
        cases hx : isSpace c with
        | false => rfl
        | true => exact absurd ⟨hd, hx⟩ hp
      constructor
      · simp only [collapseAux, hd, if_true, Bool.false_eq_true, if_false]
        rw [iht hcs, hd']
      · intro hhead
        have := hhead d rfl
        rw [hd] at this
        exact Bool.noConfusion this
    · have hstep : ∀ b : Bool, collapseAux b (d :: cs) = d :: collapseAux false cs := by
        intro b
        simp [collapseAux, hd]
      exact ⟨by rw [hstep false, ihf], fun _ => by rw [hstep true, ihf]⟩

/-- A string satisfying all the "already clean" side conditions is a fixed
point of cleanTaskText. -/
theorem cleanTaskText_fixed {y : List Char}
    (hpr : ∀ c ∈ y, isPriorityEmoji c = false)
    (hme : ∀ c ∈ y, isMetaEmoji c = false)
    (hbr : '[' ∉ y)
    (hch : List.Chain' noSpacePair y)
    (hbl : ∀ c ∈ y, isSpace c = true → c = ' ')
    (hh : ∀ c, y.head? = some c → isSpace c = false)
    (hl : ∀ c, y.getLast? = some c → isSpace c = false) :
    cleanTaskText y = y := by
  unfold cleanTaskText
  rw [stripCheckbox_eq_self hbr, removePriority_eq_self hpr, removeMeta_eq_self hme,
    removeCheckEmoji_eq_self hme, removeWikilinks_eq_self hbr, removeMdLinks_eq_self hbr]
  show trimWs (collapseAux false y) = y
  rw [(collapseAux_eq_self hch hbl).1]
  exact trimWs_eq_self hh hl

/-- C5 amended: cleanTaskText is idempotent on every input whose cleaned text
contains no residual strippable markup — no priority emoji, no metadata
emoji and no open bracket.  (In general it is not idempotent: stripping the
first checkbox prefix can expose a second one, see c5_counterexample.) -/
theorem c5_amended_idempotent_on_clean_output (x : List Char)
    (hpr : ∀ c ∈ cleanTaskText x, isPriorityEmoji c = false)
    (hme : ∀ c ∈ cleanTaskText x, isMetaEmoji c = false)
    (hbr : '[' ∉ cleanTaskText x) :
    cleanTaskText (cleanTaskText x) = cleanTaskText x := by
  have hform : cleanTaskText x = trimWs (collapseAux false (removeMdLinks (removeWikilinks
      (removeCheckEmoji (removeMeta (removePriority (stripCheckbox x))))))) := rfl
  refine cleanTaskText_fixed hpr hme hbr ?_ ?_ ?_ ?_
  · rw [hform]
    exact trimWs_chain (collapseAux_chain false _)
  · rw [hform]
    intro c hc hsp
    exact collapseAux_blanks false _ c (trimWs_subset c hc) hsp
  · rw [hform]
    exact fun c => trimWs_head
  · rw [hform]
    exact fun c => trimWs_getLast

/-- Witness for c5_amended_idempotent_on_clean_output at a realistic line. -/
theorem c5_amended_witness :
    cleanTaskText (cleanTaskText "- [x] Buy milk ⏫ [[S]]".toList)
      = cleanTaskText "- [x] Buy milk ⏫ [[S]]".toList :=
  c5_amended_idempotent_on_clean_output "- [x] Buy milk ⏫ [[S]]".toList
    (by decide) (by decide) (by decide)
